import Mathlib

/-!
Verification development for the riegeli byte-reader / chunk-reader layer.

The C++ headers under `src/` declare the public interfaces; the corresponding
`.cc` bodies (the ChunkReader state machine, the fd syscall wrappers) are not
part of the sources, so those parts are modelled from the specification's
description of the framing format and the documented contracts in the headers.

Framing constants come from the spec: 64 KiB blocks, a 24-byte block header
(two little-endian 64-bit offsets plus a 64-bit hash), and a 40-byte chunk
header (data size, number of records, decoded data size, data hash, header
hash, little-endian).  The hash function itself is unspecified, so all
definitions take it as a parameter `hashFn`; concrete witnesses instantiate
it with the model hash `hashModel`.
-/

namespace Riegeli

/-- Little-endian 64-bit serialization of a natural number (low 8 bytes). -/
def le64 (n : Nat) : List Nat :=
  [n % 256, n / 256 % 256, n / 256 ^ 2 % 256, n / 256 ^ 3 % 256,
   n / 256 ^ 4 % 256, n / 256 ^ 5 % 256, n / 256 ^ 6 % 256, n / 256 ^ 7 % 256]

/-- Little-endian decoding of a byte list. -/
def readLE : List Nat → Nat
  | [] => 0
  | b :: t => b % 256 + 256 * readLE t

/-- Block size of the Riegeli/records framing format (64 KiB). -/
def kBlockSize : Nat := 65536

/-- Size of a block header: two 64-bit offsets plus a 64-bit hash. -/
def kBlockHeaderSize : Nat := 24

/-- Size of a chunk header: five little-endian 64-bit fields. -/
def kChunkHeaderSize : Nat := 40

/-- Contiguous slice of `n` bytes of `file` starting at position `p`. -/
def sliceAt (file : List Nat) (p n : Nat) : List Nat := (file.drop p).take n

/-- Begin of the block containing position `p`. -/
def blockBegin (p : Nat) : Nat := p - p % kBlockSize

/-- Number of block-header bytes remaining at position `p`
(positive exactly when `p` lies inside the header region of its block). -/
def remainingInBlockHeader (p : Nat) : Nat :=
  if p % kBlockSize < kBlockHeaderSize then kBlockHeaderSize - p % kBlockSize else 0

/-- Positions that can be chunk boundaries: either a block boundary, or a
position past the block-header region of its block. -/
abbrev boundaryOk (p : Nat) : Prop :=
  p % kBlockSize = 0 ∨ kBlockHeaderSize ≤ p % kBlockSize

/-- Offset, within the enclosing chunk, back to the chunk boundary
preceding this block (first block-header field). -/
def bhPrev (bh : List Nat) : Nat := readLE (bh.take 8)

/-- Offset forward from the block begin to the next chunk boundary
(second block-header field). -/
def bhNext (bh : List Nat) : Nat := readLE (sliceAt bh 8 8)

/-- Stored hash of the two offsets (third block-header field). -/
def bhHash (bh : List Nat) : Nat := readLE (sliceAt bh 16 8)

/-- Validity of the block header found at block begin `B`, checked against the
start position `cs` of the chunk currently being read: the stored hash must
match and the backward offset must point at `cs`. -/
abbrev validBlockHeaderAt (hashFn : List Nat → Nat) (file : List Nat) (cs B : Nat) : Prop :=
  bhHash (sliceAt file B kBlockHeaderSize) =
      hashFn ((sliceAt file B kBlockHeaderSize).take 16) % 2 ^ 64 ∧
    cs ≤ B ∧ bhPrev (sliceAt file B kBlockHeaderSize) = B - cs

/-- Result of reading a run of chunk-logical bytes: the bytes with the end
position, a clean end of the source, or an invalid interleaved block header. -/
inductive ChunkBytesRes where
  | bytes (l : List Nat) (endPos : Nat)
  | srcEnds
  | badBlock (B : Nat)
  deriving DecidableEq

/-- Reads `n` chunk-logical bytes of the chunk starting at `cs` from physical
position `p`, validating and skipping every interleaved block header. -/
def readChunkBytes (hashFn : List Nat → Nat) (file : List Nat) (cs : Nat) :
    Nat → Nat → ChunkBytesRes
  | p, 0 => .bytes [] p
  | p, n + 1 =>
    if 0 < remainingInBlockHeader p ∧ file.length < blockBegin p + kBlockHeaderSize then
      .srcEnds
    else if 0 < remainingInBlockHeader p ∧ ¬validBlockHeaderAt hashFn file cs (blockBegin p) then
      .badBlock (blockBegin p)
    else if p + remainingInBlockHeader p < file.length then
      match readChunkBytes hashFn file cs (p + remainingInBlockHeader p + 1) n with
      | .bytes l e => .bytes (file.getD (p + remainingInBlockHeader p) 0 :: l) e
      | .srcEnds => .srcEnds
      | .badBlock B => .badBlock B
    else .srcEnds

/-- Chunk header fields, in the order given by the spec. -/
structure ChunkHeader where
  dataSize : Nat
  numRecords : Nat
  decodedDataSize : Nat
  dataHash : Nat
  headerHash : Nat
  deriving DecidableEq

/-- A chunk: header plus payload bytes. -/
structure Chunk where
  header : ChunkHeader
  data : List Nat
  deriving DecidableEq

/-- Decodes the five little-endian 64-bit fields of a 40-byte chunk header. -/
def decodeChunkHeader (b : List Nat) : ChunkHeader :=
  ⟨readLE (b.take 8), readLE (sliceAt b 8 8), readLE (sliceAt b 16 8),
   readLE (sliceAt b 24 8), readLE (sliceAt b 32 8)⟩

/-- Result of parsing a chunk header (or a whole chunk) at a chunk boundary. -/
inductive ParseRes (α : Type) where
  | ok (val : α) (endPos : Nat)
  | srcEnds
  | corrupt (recPos : Nat)
  deriving DecidableEq

/-- Parses the chunk header of the chunk starting at boundary `pos`:
reads 40 chunk-logical bytes (skipping interleaved block headers) and
checks the stored header hash. -/
def parseHeaderAt (hashFn : List Nat → Nat) (file : List Nat) (pos : Nat) :
    ParseRes ChunkHeader :=
  if file.length ≤ pos then .srcEnds
  else
    match readChunkBytes hashFn file pos pos kChunkHeaderSize with
    | .bytes b e =>
      if (decodeChunkHeader b).headerHash = hashFn (b.take 32) % 2 ^ 64 then
        .ok (decodeChunkHeader b) e
      else .corrupt pos
    | .srcEnds => .srcEnds
    | .badBlock B => .corrupt B

/-- Parses the whole chunk starting at boundary `pos`: header, then
`dataSize` payload bytes, checking the stored data hash. -/
def parseChunkAt (hashFn : List Nat → Nat) (file : List Nat) (pos : Nat) :
    ParseRes Chunk :=
  match parseHeaderAt hashFn file pos with
  | .ok h e1 =>
    match readChunkBytes hashFn file pos e1 h.dataSize with
    | .bytes d e2 =>
      if hashFn d % 2 ^ 64 = h.dataHash then .ok ⟨h, d⟩ e2 else .corrupt pos
    | .srcEnds => .srcEnds
    | .badBlock B => .corrupt B
  | .srcEnds => .srcEnds
  | .corrupt r => .corrupt r

/-- Model hash used by concrete witnesses (the format's hash function is
not fixed by the sources, so it is kept abstract in all generic results). -/
def hashModel (l : List Nat) : Nat :=
  l.foldl (fun a b => (a * 131 + b + 1) % 2 ^ 64) 7

/-- Serializes a block header with the given offsets. -/
def encBlockHeader (hashFn : List Nat → Nat) (prev next : Nat) : List Nat :=
  le64 prev ++ le64 next ++ le64 (hashFn (le64 prev ++ le64 next) % 2 ^ 64)

/-- Serializes a chunk header for a payload `data` with `numRecords` records. -/
def encChunkHeader (hashFn : List Nat → Nat) (data : List Nat) (numRecords : Nat) :
    List Nat :=
  let b32 := le64 data.length ++ le64 numRecords ++ le64 data.length ++
    le64 (hashFn data % 2 ^ 64)
  b32 ++ le64 (hashFn b32 % 2 ^ 64)

/-- A one-chunk file: initial block header, chunk header, 3-byte payload. -/
def file1 : List Nat :=
  encBlockHeader hashModel 0 24 ++ encChunkHeader hashModel [1, 2, 3] 1 ++ [1, 2, 3]

/-- A truncated file: a valid initial block header followed by 6 bytes of an
incomplete chunk header. -/
def truncFile : List Nat := encBlockHeader hashModel 0 24 ++ [9, 9, 9, 9, 9, 9]

/-- How a `Recover()` call should proceed (`ChunkReader::Recoverable`). -/
inductive Recoverable where
  | kNo
  | kHaveChunk
  | kFindChunk
  deriving DecidableEq

/-- Which chunk boundary a `SeekToChunk` variant targets. -/
inductive WhichChunk where
  | kContaining
  | kBefore
  | kAfter
  deriving DecidableEq

/-- Observable state of a ChunkReader, modelled from the spec and the
invariant comments of `chunk_reader.h`: `pos` is `pos_` (beginning of the
current chunk), `brPos` is `byte_reader_->pos()`, and `recoverablePos`
is `recoverable_pos_`. -/
structure CRState where
  closed : Bool
  failed : Bool
  truncated : Bool
  pos : Nat
  brPos : Nat
  recoverable : Recoverable
  recoverablePos : Nat
  deriving DecidableEq

/-- Health of the reader: open and not failed. -/
def CRState.healthy (s : CRState) : Bool := !s.closed && !s.failed

/-- A freshly constructed ChunkReader over a byte reader at position `p0`. -/
def initCR (p0 : Nat) : CRState :=
  ⟨false, false, false, p0, p0, .kNo, 0⟩

/-- Reads the next chunk (`ChunkReader::ReadChunk`, modelled from the spec):
parses the chunk at `pos`; on success advances `pos` past it; at a clean end
of the source returns false while healthy, setting `truncated_` when the
source ends in the middle of the chunk; on invalid framing fails with a
`kFindChunk` recovery token. -/
def ChunkReader.ReadChunk (hashFn : List Nat → Nat) (file : List Nat) (s : CRState) :
    Bool × Option Chunk × CRState :=
  if !s.healthy then (false, none, s)
  else
    match parseChunkAt hashFn file s.pos with
    | .ok c e => (true, some c, { s with pos := e, brPos := e, truncated := false })
    | .srcEnds =>
      (false, none, { s with brPos := file.length, truncated := decide (s.pos < file.length) })
    | .corrupt r =>
      (false, none,
       { s with failed := true, truncated := false, recoverable := .kFindChunk,
                recoverablePos := r, brPos := min (r + kBlockHeaderSize) file.length })

/-- Reads the next chunk header only (`ChunkReader::PullChunkHeader`,
modelled from the spec); `pos` is left at the chunk boundary. -/
def ChunkReader.PullChunkHeader (hashFn : List Nat → Nat) (file : List Nat) (s : CRState) :
    Bool × Option ChunkHeader × CRState :=
  if !s.healthy then (false, none, s)
  else
    match parseHeaderAt hashFn file s.pos with
    | .ok h e => (true, some h, { s with brPos := e, truncated := false })
    | .srcEnds =>
      (false, none, { s with brPos := file.length, truncated := decide (s.pos < file.length) })
    | .corrupt r =>
      (false, none,
       { s with failed := true, truncated := false, recoverable := .kFindChunk,
                recoverablePos := r, brPos := min (r + kBlockHeaderSize) file.length })

/-- Checks that the file looks like a valid Riegeli/records file
(`ChunkReader::CheckFileFormat`): pulls the first chunk header. -/
def ChunkReader.CheckFileFormat (hashFn : List Nat → Nat) (file : List Nat) (s : CRState) :
    Bool × CRState :=
  let r := ChunkReader.PullChunkHeader hashFn file s
  (r.1, r.2.2)

/-- Finalization (`ChunkReader::Done`, modelled from the spec): a truncated
source fails the reader and leaves a `kHaveChunk` token at the current chunk
boundary, so that `Recover()` can acknowledge a file that may be appended to;
otherwise any pending `kFindChunk` token is dropped. -/
def ChunkReader.Done (s : CRState) : CRState :=
  if s.closed then s
  else if s.truncated then
    { s with closed := true, failed := true, recoverable := .kHaveChunk,
             recoverablePos := s.pos }
  else { s with closed := true, recoverable := .kNo }

/-- Close: runs `Done` and reports whether the reader is failure-free. -/
def ChunkReader.Close (s : CRState) : Bool × CRState :=
  let s' := ChunkReader.Done s
  (!s'.failed, s')

/-- Smallest block boundary at or after `p`. -/
def nextBlockBoundary (p : Nat) : Nat :=
  (p + kBlockSize - 1) / kBlockSize * kBlockSize

/-- Recovery scan (modelled from the spec): starting at block boundary `B`,
reads the block header there and jumps to the chunk boundary it reports;
an invalid block header advances block by block; at the end of the source
the scan stops at the current block boundary (which becomes `pos`,
possibly past the end of the file). -/
def findChunkFrom (hashFn : List Nat → Nat) (file : List Nat) :
    Nat → Nat → Nat
  | 0, B => B
  | fuel + 1, B =>
    if file.length < B + kBlockHeaderSize then B
    else if
        bhHash (sliceAt file B kBlockHeaderSize) =
            hashFn ((sliceAt file B kBlockHeaderSize).take 16) % 2 ^ 64 ∧
          boundaryOk (B + bhNext (sliceAt file B kBlockHeaderSize)) then
      B + bhNext (sliceAt file B kBlockHeaderSize)
    else findChunkFrom hashFn file fuel (B + kBlockSize)

/-- Recovery (`ChunkReader::Recover`, modelled from the spec and the header
contract): applicable only when not healthy; after a failed `Close()` of a
truncated file it succeeds and the reader remains closed; a `kHaveChunk`
token resumes at the recorded position; a `kFindChunk` token scans for the
next block and the chunk it reports.  Returns the skipped region. -/
def ChunkReader.Recover (hashFn : List Nat → Nat) (file : List Nat) (s : CRState) :
    Bool × Option (Nat × Nat) × CRState :=
  if s.healthy then (false, none, s)
  else if s.closed then
    match s.recoverable with
    | .kHaveChunk =>
      (true, some (s.pos, s.recoverablePos),
       { s with recoverable := .kNo, pos := s.recoverablePos, truncated := false })
    | _ => (false, none, s)
  else
    match s.recoverable with
    | .kNo => (false, none, s)
    | .kHaveChunk =>
      (true, some (s.pos, s.recoverablePos),
       { s with failed := false, recoverable := .kNo, pos := s.recoverablePos,
                truncated := false, brPos := min s.recoverablePos file.length })
    | .kFindChunk =>
      let b := nextBlockBoundary s.recoverablePos
      let newPos := findChunkFrom hashFn file (file.length / kBlockSize + 2) b
      (true, some (s.pos, newPos),
       { s with failed := false, recoverable := .kNo, pos := newPos,
                truncated := false, brPos := min newPos file.length })

/-- Seek to a chunk boundary (`ChunkReader::Seek`): seeking past the end of
the source fails the reader. -/
def ChunkReader.Seek (file : List Nat) (newPos : Nat) (s : CRState) : Bool × CRState :=
  if !s.healthy then (false, s)
  else if newPos ≤ file.length then
    (true, { s with pos := newPos, brPos := newPos, truncated := false })
  else
    (false, { s with failed := true, truncated := false, brPos := file.length })

/-- Walks the chunks of the file from boundary `cur` to resolve the chunk
boundary targeted by a `SeekToChunk` variant at position `P` (modelled from
the spec and the header comments): `kBefore` picks the boundary at or before
`P`, `kAfter` at or after, and `kContaining` snaps back when `P` is less than
`numRecords` bytes after the chunk beginning.  Returns none when invalid
framing is encountered. -/
def resolveChunk (hashFn : List Nat → Nat) (file : List Nat) (which : WhichChunk)
    (P : Nat) : Nat → Nat → Option Nat
  | 0, cur => some cur
  | fuel + 1, cur =>
    match parseHeaderAt hashFn file cur with
    | .srcEnds => some cur
    | .corrupt _ => none
    | .ok h e1 =>
      match readChunkBytes hashFn file cur e1 h.dataSize with
      | .srcEnds => some cur
      | .badBlock _ => none
      | .bytes _ e2 =>
        if P < e2 then
          match which with
          | .kBefore => some cur
          | .kContaining => if P < cur + h.numRecords then some cur else some e2
          | .kAfter => if P ≤ cur then some cur else some e2
        else resolveChunk hashFn file which P fuel e2

/-- The `SeekToChunkContaining` / `Before` / `After` family (modelled from
the spec): resolves the target boundary by walking block and chunk headers,
then seeks there; on invalid framing it fails with a `kFindChunk` token at
the next block boundary. -/
def ChunkReader.SeekToChunk (hashFn : List Nat → Nat) (file : List Nat)
    (which : WhichChunk) (P : Nat) (s : CRState) : Bool × CRState :=
  if !s.healthy then (false, s)
  else
    match resolveChunk hashFn file which P (file.length + 1) 0 with
    | some b => ChunkReader.Seek file b s
    | none =>
      (false,
       { s with failed := true, truncated := false, recoverable := .kFindChunk,
                recoverablePos := nextBlockBoundary (max s.pos P),
                brPos := min P file.length })

/-- Size of the file (`ChunkReader::Size`): delegates to the byte reader. -/
def ChunkReader.SizeOp (file : List Nat) (s : CRState) : Option Nat × CRState :=
  if !s.healthy then (none, s) else (some file.length, s)

/-- States reachable from construction through the public ChunkReader
operations.  `Seek` carries the caller contract that the target is a chunk
boundary, and construction starts at the byte reader's position, which is a
chunk boundary or block boundary. -/
inductive Reach (hashFn : List Nat → Nat) (file : List Nat) : CRState → Prop where
  | init (p0 : Nat) (hp : boundaryOk p0) : Reach hashFn file (initCR p0)
  | readChunk {s : CRState} : Reach hashFn file s →
      Reach hashFn file (ChunkReader.ReadChunk hashFn file s).2.2
  | pullChunkHeader {s : CRState} : Reach hashFn file s →
      Reach hashFn file (ChunkReader.PullChunkHeader hashFn file s).2.2
  | checkFileFormat {s : CRState} : Reach hashFn file s →
      Reach hashFn file (ChunkReader.CheckFileFormat hashFn file s).2
  | recover {s : CRState} : Reach hashFn file s →
      Reach hashFn file (ChunkReader.Recover hashFn file s).2.2
  | close {s : CRState} : Reach hashFn file s →
      Reach hashFn file (ChunkReader.Close s).2
  | seek {s : CRState} (p : Nat) (hp : boundaryOk p) : Reach hashFn file s →
      Reach hashFn file (ChunkReader.Seek file p s).2
  | seekToChunk {s : CRState} (which : WhichChunk) (p : Nat) : Reach hashFn file s →
      Reach hashFn file (ChunkReader.SeekToChunk hashFn file which p s).2
  | sizeOp {s : CRState} : Reach hashFn file s →
      Reach hashFn file (ChunkReader.SizeOp file s).2

/-- Master invariant of the ChunkReader state: the recoverability-token
invariants of `chunk_reader.h`, the truncation invariant, and
well-formedness of the tracked positions. -/
def CRInv (s : CRState) : Prop :=
  (s.healthy = true → s.recoverable = .kNo) ∧
  (s.closed = true → s.recoverable ≠ .kFindChunk) ∧
  (s.recoverable ≠ .kNo → s.pos ≤ s.recoverablePos) ∧
  (s.recoverable ≠ .kNo → boundaryOk s.recoverablePos) ∧
  (s.truncated = true → s.pos < s.brPos) ∧
  boundaryOk s.pos

/-! ### Descriptor-backed readers (fd_reader.h)

The templates in the header wire the constructors, `Done()` and the
dependency holder explicitly; `lseek`/`pread`/`close`/`fstat` effects of the
out-of-src `.cc` bodies are modelled from the spec.  `FdWorld` models the
kernel-side view of the descriptor: its contents, its seek position, and
counters of the operations that touch the seek position. -/

/-- Name of the failed OS operation recorded in the reader's status. -/
inductive FdOpName where
  | closeOp
  | fstatOp
  | seekOp
  deriving DecidableEq

/-- Kernel-side view of a file descriptor: file contents, the descriptor's
seek position, counts of lseek queries (`posReads`) and lseek updates
(`posWrites`) and of `close()` calls, whether the descriptor is open, and
whether `close()` or `fstat()` would fail on it. -/
structure FdWorld where
  content : List Nat
  fdPos : Nat
  posReads : Nat
  posWrites : Nat
  closeCalls : Nat
  fdOpen : Bool
  closeFails : Bool
  fstatOk : Bool
  deriving DecidableEq

/-- State of an `FdReader`: the dependency-held descriptor (`fdVal` becomes
-1 on `Release()`), the ownership bit, `sync_pos_`, the buffered-reader
window bookkeeping (`limit_pos_` and the bytes available in the window), and
the object state. -/
structure FdReaderState where
  fdVal : Int
  owning : Bool
  syncPos : Bool
  limitPos : Nat
  bufAvail : Nat
  closed : Bool
  failed : Bool
  lastFailure : Option FdOpName
  deriving DecidableEq

/-- Health of an fd reader: open and not failed. -/
def FdReaderState.healthy (s : FdReaderState) : Bool := !s.closed && !s.failed

/-- Logical position: `limit_pos_` minus the bytes left in the window. -/
def FdReaderState.pos (s : FdReaderState) : Nat := s.limitPos - s.bufAvail

/-- Constructor of `FdReader` (fd_reader.h): `sync_pos_` is set exactly when
no initial position is supplied.  Modelled from the spec: with an initial
position, reading starts there and the descriptor position is never touched;
without one, the current descriptor position is queried (lseek) and
adopted. -/
def FdReader.mk (w : FdWorld) (fd : Int) (owning : Bool) (initialPos : Option Nat) :
    FdWorld × FdReaderState :=
  match initialPos with
  | some p => (w, ⟨fd, owning, false, p, 0, false, false, none⟩)
  | none =>
    ({ w with posReads := w.posReads + 1 },
     ⟨fd, owning, true, w.fdPos, 0, false, false, none⟩)

/-- Reading (modelled from the spec): `ReadInternal` uses positional reads
(`pread`) at `limit_pos_`, so the descriptor's seek position is never
touched. -/
def FdReader.read (w : FdWorld) (s : FdReaderState) (n : Nat) :
    FdWorld × FdReaderState × List Nat :=
  if !s.healthy then (w, s, [])
  else
    (w,
     { s with limitPos := s.pos + (sliceAt w.content s.pos n).length, bufAvail := 0 },
     sliceAt w.content s.pos n)

/-- Seeking (modelled from the spec): needs `fstat` for the file size; seeks
past the end of the source fail; the window is discarded. -/
def FdReader.seek (w : FdWorld) (s : FdReaderState) (p : Nat) :
    FdWorld × FdReaderState :=
  if !s.healthy then (w, s)
  else if !w.fstatOk then
    (w, { s with failed := true, lastFailure := some .fstatOp })
  else if p ≤ w.content.length then
    (w, { s with limitPos := p, bufAvail := 0 })
  else (w, { s with failed := true, lastFailure := some .seekOp })

/-- Model of `FdReaderBase::Size` (modelled from the spec): issues `fstat` and
returns the file's size; fails when `fstat` is unavailable. -/
def FdReaderBase.SizeOp (w : FdWorld) (s : FdReaderState) :
    Option Nat × FdReaderState :=
  if !s.healthy then (none, s)
  else if w.fstatOk then (some w.content.length, s)
  else (none, { s with failed := true, lastFailure := some .fstatOp })

/-- Model of `FdReaderBase::SupportsRandomAccess` (fd_reader.h line 117): returns
true unconditionally. -/
def FdReaderBase.SupportsRandomAccess (s : FdReaderState) : Bool := true

/-- Model of `FdReader::Done` (fd_reader.h): if healthy, `SyncPos` (modelled from the
spec: only with `sync_pos_` set does it lseek the descriptor to the logical
position); then the buffered reader is finalized; then, if owning a valid
descriptor, it is released and closed — a close error is reported only when
the reader is still healthy. -/
def FdReader.done (w : FdWorld) (s : FdReaderState) : FdWorld × FdReaderState :=
  let w1 :=
    if !s.failed && s.syncPos then
      { w with fdPos := s.pos, posWrites := w.posWrites + 1 }
    else w
  let s2 := { s with limitPos := s.pos, bufAvail := 0 }
  if s2.owning && decide (0 ≤ s2.fdVal) then
    let w2 := { w1 with closeCalls := w1.closeCalls + 1, fdOpen := false }
    if w2.closeFails && !s2.failed then
      (w2, { s2 with fdVal := -1, failed := true, lastFailure := some .closeOp })
    else (w2, { s2 with fdVal := -1 })
  else (w1, s2)

/-- Close on an `FdReader`: runs `Done` once, then marks the reader
closed. -/
def FdReader.close (w : FdWorld) (s : FdReaderState) : FdWorld × FdReaderState :=
  if s.closed then (w, s)
  else ((FdReader.done w s).1, { (FdReader.done w s).2 with closed := true })

/-- Operations on an `FdReader` after construction. -/
inductive FdOp where
  | rd (n : Nat)
  | sk (p : Nat)
  | cl
  deriving DecidableEq

/-- Runs one operation. -/
def FdReader.step (op : FdOp) (ws : FdWorld × FdReaderState) :
    FdWorld × FdReaderState :=
  match op with
  | .rd n => ((FdReader.read ws.1 ws.2 n).1, (FdReader.read ws.1 ws.2 n).2.1)
  | .sk p => FdReader.seek ws.1 ws.2 p
  | .cl => FdReader.close ws.1 ws.2

/-- Runs a sequence of operations. -/
def FdReader.run (ops : List FdOp) (ws : FdWorld × FdReaderState) :
    FdWorld × FdReaderState :=
  ops.foldl (fun acc op => FdReader.step op acc) ws

/-- State of an `FdMMapReader`: the mapped contents back a pure in-memory
chain reader. -/
structure FdMMapState where
  fdVal : Int
  owning : Bool
  syncPos : Bool
  data : List Nat
  posM : Nat
  closed : Bool
  failed : Bool
  lastFailure : Option FdOpName
  deriving DecidableEq

/-- Health of an mmap reader. -/
def FdMMapState.healthy (s : FdMMapState) : Bool := !s.closed && !s.failed

/-- Constructor of `FdMMapReader` (fd_reader.h): `sync_pos_` is set exactly
when no initial position is supplied.  Modelled from the spec: fstat for the
size, mmap the whole file; with no initial position the current descriptor
position is queried (lseek) and adopted. -/
def FdMMapReader.mk (w : FdWorld) (fd : Int) (owning : Bool)
    (initialPos : Option Nat) : FdWorld × FdMMapState :=
  if !w.fstatOk then
    (w, ⟨fd, owning, initialPos.isNone, [], 0, false, true, some .fstatOp⟩)
  else
    match initialPos with
    | some p => (w, ⟨fd, owning, false, w.content, p, false, false, none⟩)
    | none =>
      ({ w with posReads := w.posReads + 1 },
       ⟨fd, owning, true, w.content, w.fdPos, false, false, none⟩)

/-- Reading from the mapped region: pure, never touches the descriptor. -/
def FdMMapReader.read (s : FdMMapState) (n : Nat) : FdMMapState × List Nat :=
  if !s.healthy then (s, [])
  else
    ({ s with posM := s.posM + (sliceAt s.data s.posM n).length },
     sliceAt s.data s.posM n)

/-- Seeking within the mapped region: pure, never touches the descriptor. -/
def FdMMapReader.seek (s : FdMMapState) (p : Nat) : FdMMapState :=
  if !s.healthy then s
  else if p ≤ s.data.length then { s with posM := p }
  else { s with failed := true, lastFailure := some .seekOp }

/-- Model of `FdMMapReader::Done` (fd_reader.h): if healthy, `SyncPos`; the chain is
cleared (munmap); then the owned descriptor is released and closed, a close
error being reported only when still healthy. -/
def FdMMapReader.done (w : FdWorld) (s : FdMMapState) : FdWorld × FdMMapState :=
  let w1 :=
    if !s.failed && s.syncPos then
      { w with fdPos := s.posM, posWrites := w.posWrites + 1 }
    else w
  let s2 := { s with data := [] }
  if s2.owning && decide (0 ≤ s2.fdVal) then
    let w2 := { w1 with closeCalls := w1.closeCalls + 1, fdOpen := false }
    if w2.closeFails && !s2.failed then
      (w2, { s2 with fdVal := -1, failed := true, lastFailure := some .closeOp })
    else (w2, { s2 with fdVal := -1 })
  else (w1, s2)

/-- Close on an `FdMMapReader`. -/
def FdMMapReader.close (w : FdWorld) (s : FdMMapState) : FdWorld × FdMMapState :=
  if s.closed then (w, s)
  else ((FdMMapReader.done w s).1, { (FdMMapReader.done w s).2 with closed := true })

/-- Runs one operation on an `FdMMapReader`. -/
def FdMMapReader.step (op : FdOp) (ws : FdWorld × FdMMapState) :
    FdWorld × FdMMapState :=
  match op with
  | .rd n => (ws.1, (FdMMapReader.read ws.2 n).1)
  | .sk p => (ws.1, FdMMapReader.seek ws.2 p)
  | .cl => FdMMapReader.close ws.1 ws.2

/-- Runs a sequence of operations on an `FdMMapReader`. -/
def FdMMapReader.run (ops : List FdOp) (ws : FdWorld × FdMMapState) :
    FdWorld × FdMMapState :=
  ops.foldl (fun acc op => FdMMapReader.step op acc) ws

/-- State of an `FdStreamReader`. -/
structure FdStreamState where
  fdVal : Int
  owning : Bool
  limitPos : Nat
  bufAvail : Nat
  closed : Bool
  failed : Bool
  deriving DecidableEq

/-- Logical position of a stream reader. -/
def FdStreamState.pos (s : FdStreamState) : Nat := s.limitPos - s.bufAvail

/-- Constructor of `FdStreamReader` from a raw descriptor (fd_reader.h):
the precondition checks require a non-negative descriptor and an assumed
initial position (`RIEGELI_CHECK(options.assumed_pos_.has_value())`); on
success `limit_pos_` is the assumed position. -/
def FdStreamReader.mkFromFd (fd : Int) (owning : Bool) (assumedPos : Option Nat) :
    Option FdStreamState :=
  if fd < 0 then none
  else
    match assumedPos with
    | none => none
    | some p => some ⟨fd, owning, p, 0, false, false⟩

/-- Constructor of `FdStreamReader` from a filename (fd_reader.h): the
assumed position is optional and the position is assumed to be 0 when it is
absent; the opened descriptor is owned. -/
def FdStreamReader.mkFromFilename (fd : Int) (assumedPos : Option Nat) :
    FdStreamState :=
  ⟨fd, true, assumedPos.getD 0, 0, false, false⟩

/-! ### TensorFlow FileReader (riegeli/tensorflow/io/file_reader.h) -/

/-- A `::tensorflow::RandomAccessFile`, abstracted to what the reader
observes: the result of `Name()` (`none` when unsupported). -/
structure RAFile where
  nameRes : Option (List Nat)
  deriving DecidableEq

/-- State of a TensorFlow `FileReader`: the recorded filename (empty when
the name of the file could not be determined) and the object state. -/
structure TFFileReaderState where
  filename : List Nat
  closed : Bool
  failed : Bool
  deriving DecidableEq

/-- Model of `FileReaderBase::SupportsRandomAccess` (file_reader.h line 103): random
access is advertised exactly when the recorded filename is non-empty. -/
def FileReaderBase.SupportsRandomAccess (s : TFFileReaderState) : Bool :=
  !s.filename.isEmpty

/-- Constructor of `FileReader` from a `RandomAccessFile` (file_reader.h).
Modelled from the header's documentation of the out-of-src filename setup:
the filename is taken from `Name()`, and is left empty when `Name()` is
unsupported, in which case the reader stays usable without random access. -/
def TFFileReader.mk (f : RAFile) : TFFileReaderState :=
  ⟨f.nameRes.getD [], false, false⟩

/-! ### Lemmas about the framing parser -/

theorem blockBegin_self {p : Nat} (h : p % kBlockSize = 0) : blockBegin p = p := by
  simp [blockBegin, h]

theorem boundaryOk_shift {p : Nat} (hp : boundaryOk p) :
    kBlockHeaderSize ≤ (p + remainingInBlockHeader p) % kBlockSize := by
  simp only [boundaryOk, remainingInBlockHeader, kBlockSize, kBlockHeaderSize] at *
  split_ifs with h <;> omega

theorem boundaryOk_shift_succ {p : Nat} (hp : boundaryOk p) :
    boundaryOk (p + remainingInBlockHeader p + 1) := by
  simp only [boundaryOk, remainingInBlockHeader, kBlockSize, kBlockHeaderSize] at *
  split_ifs at * <;> omega

theorem readChunkBytes_spec (hashFn : List Nat → Nat) (file : List Nat) (cs : Nat) :
    ∀ (n p : Nat), boundaryOk p →
      (∀ l e, readChunkBytes hashFn file cs p n = .bytes l e → boundaryOk e ∧ p ≤ e) ∧
      (∀ B, readChunkBytes hashFn file cs p n = .badBlock B →
        p ≤ B ∧ B % kBlockSize = 0) := by
  intro n
  induction n with
  | zero =>
    intro p hp
    refine ⟨?_, ?_⟩
    · intro l e h
      simp only [readChunkBytes] at h
      injection h with h1 h2
      subst h2
      exact ⟨hp, Nat.le_refl p⟩
    · intro B h
      simp only [readChunkBytes] at h
      simp at h
  | succ n ih =>
    intro p hp
    refine ⟨?_, ?_⟩
    · intro l e h
      simp only [readChunkBytes] at h
      split at h
      · simp at h
      · split at h
        · simp at h
        · split at h
          · split at h
            · next l' e' hrec =>
              injection h with h1 h2
              subst h2
              have hnext := (ih (p + remainingInBlockHeader p + 1)
                (boundaryOk_shift_succ hp)).1 l' e' hrec
              exact ⟨hnext.1, by omega⟩
            · simp at h
            · simp at h
          · simp at h
    · intro B h
      simp only [readChunkBytes] at h
      split at h
      · simp at h
      · split at h
        · next h2 =>
          injection h with hB
          subst hB
          have h0 : p % kBlockSize = 0 := by
            rcases hp with hh | hh
            · exact hh
            · exfalso
              obtain ⟨h2a, -⟩ := h2
              simp only [remainingInBlockHeader, kBlockSize, kBlockHeaderSize] at h2a hh
              split_ifs at h2a <;> omega
          rw [blockBegin_self h0]
          exact ⟨Nat.le_refl p, h0⟩
        · split at h
          · split at h
            · simp at h
            · simp at h
            · next B' hrec =>
              injection h with hB
              subst hB
              have hnext := (ih (p + remainingInBlockHeader p + 1)
                (boundaryOk_shift_succ hp)).2 B' hrec
              exact ⟨by omega, hnext.2⟩
          · simp at h

theorem parseHeaderAt_ok_spec {hashFn : List Nat → Nat} {file : List Nat}
    {pos : Nat} {h : ChunkHeader} {e : Nat} (hb : boundaryOk pos)
    (hp : parseHeaderAt hashFn file pos = .ok h e) : boundaryOk e ∧ pos ≤ e := by
  simp only [parseHeaderAt] at hp
  split at hp
  · simp at hp
  · split at hp
    · next b e' hrec =>
      split at hp
      · injection hp with h1 h2
        subst h2
        exact (readChunkBytes_spec hashFn file pos kChunkHeaderSize pos hb).1 b _ hrec
      · simp at hp
    · simp at hp
    · simp at hp

theorem parseHeaderAt_corrupt_spec {hashFn : List Nat → Nat} {file : List Nat}
    {pos r : Nat} (hb : boundaryOk pos)
    (hp : parseHeaderAt hashFn file pos = .corrupt r) : pos ≤ r ∧ boundaryOk r := by
  simp only [parseHeaderAt] at hp
  split at hp
  · simp at hp
  · split at hp
    · split at hp
      · simp at hp
      · injection hp with h1
        subst h1
        exact ⟨Nat.le_refl pos, hb⟩
    · simp at hp
    · next B hrec =>
      injection hp with h1
      subst h1
      have := (readChunkBytes_spec hashFn file pos kChunkHeaderSize pos hb).2 _ hrec
      exact ⟨this.1, Or.inl this.2⟩

theorem parseChunkAt_ok_spec {hashFn : List Nat → Nat} {file : List Nat}
    {pos : Nat} {c : Chunk} {e : Nat} (hb : boundaryOk pos)
    (hp : parseChunkAt hashFn file pos = .ok c e) : boundaryOk e ∧ pos ≤ e := by
  simp only [parseChunkAt] at hp
  split at hp
  · next h e1 hhdr =>
    have hh := parseHeaderAt_ok_spec hb hhdr
    split at hp
    · next d e2 hrec =>
      split at hp
      · injection hp with h1 h2
        subst h2
        have := (readChunkBytes_spec hashFn file pos h.dataSize e1 hh.1).1 d _ hrec
        exact ⟨this.1, Nat.le_trans hh.2 this.2⟩
      · simp at hp
    · simp at hp
    · simp at hp
  · simp at hp
  · simp at hp

theorem parseChunkAt_corrupt_spec {hashFn : List Nat → Nat} {file : List Nat}
    {pos r : Nat} (hb : boundaryOk pos)
    (hp : parseChunkAt hashFn file pos = .corrupt r) : pos ≤ r ∧ boundaryOk r := by
  simp only [parseChunkAt] at hp
  split at hp
  · next h e1 hhdr =>
    have hh := parseHeaderAt_ok_spec hb hhdr
    split at hp
    · split at hp
      · simp at hp
      · injection hp with h1
        subst h1
        exact ⟨Nat.le_refl pos, hb⟩
    · simp at hp
    · next B hrec =>
      injection hp with h1
      subst h1
      have := (readChunkBytes_spec hashFn file pos h.dataSize e1 hh.1).2 _ hrec
      exact ⟨Nat.le_trans hh.2 this.1, Or.inl this.2⟩
  · simp at hp
  · next r' hhdr =>
    injection hp with h1
    subst h1
    exact parseHeaderAt_corrupt_spec hb hhdr

theorem nextBlockBoundary_spec (p : Nat) :
    p ≤ nextBlockBoundary p ∧ nextBlockBoundary p % kBlockSize = 0 := by
  simp only [nextBlockBoundary, kBlockSize]
  omega

theorem findChunkFrom_spec (hashFn : List Nat → Nat) (file : List Nat) :
    ∀ (fuel B : Nat), B % kBlockSize = 0 →
      B ≤ findChunkFrom hashFn file fuel B ∧
        boundaryOk (findChunkFrom hashFn file fuel B) := by
  intro fuel
  induction fuel with
  | zero =>
    intro B hB
    simp only [findChunkFrom]
    exact ⟨Nat.le_refl B, Or.inl hB⟩
  | succ fuel ih =>
    intro B hB
    simp only [findChunkFrom]
    split
    · exact ⟨Nat.le_refl B, Or.inl hB⟩
    · split
      · next hvalid =>
        exact ⟨Nat.le_add_right B _, hvalid.2⟩
      · have hB' : (B + kBlockSize) % kBlockSize = 0 := by
          simp only [kBlockSize] at *
          omega
        have := ih (B + kBlockSize) hB'
        exact ⟨by omega, this.2⟩

theorem resolveChunk_some_spec (hashFn : List Nat → Nat) (file : List Nat)
    (which : WhichChunk) (P : Nat) :
    ∀ (fuel cur : Nat), boundaryOk cur →
      ∀ b, resolveChunk hashFn file which P fuel cur = some b → boundaryOk b := by
  intro fuel
  induction fuel with
  | zero =>
    intro cur hc b h
    simp only [resolveChunk] at h
    injection h with h1
    subst h1
    exact hc
  | succ fuel ih =>
    intro cur hc b h
    simp only [resolveChunk] at h
    split at h
    · injection h with h1
      subst h1
      exact hc
    · simp at h
    · next hh e1 hhdr =>
      have hh1 := parseHeaderAt_ok_spec hc hhdr
      split at h
      · injection h with h1
        subst h1
        exact hc
      · simp at h
      · next d e2 hrec =>
        have hh2 := (readChunkBytes_spec hashFn file cur hh.dataSize e1 hh1.1).1 d e2 hrec
        split at h
        · split at h
          · injection h with h1
            subst h1
            exact hc
          · split at h
            · injection h with h1
              subst h1
              exact hc
            · injection h with h1
              subst h1
              exact hh2.1
          · split at h
            · injection h with h1
              subst h1
              exact hc
            · injection h with h1
              subst h1
              exact hh2.1
        · exact ih e2 hh2.1 b h

/-! ### Preservation of the master invariant by every public operation -/

theorem healthy_fields {s : CRState} (h : s.healthy = true) :
    s.closed = false ∧ s.failed = false := by
  unfold CRState.healthy at h
  constructor
  · cases hc : s.closed
    · rfl
    · rw [hc] at h
      simp at h
  · cases hf : s.failed
    · rfl
    · rw [hf] at h
      simp at h

theorem CRInv_initCR (p0 : Nat) (hp : boundaryOk p0) : CRInv (initCR p0) := by
  unfold CRInv initCR CRState.healthy
  refine ⟨fun _ => rfl, ?_, ?_, ?_, ?_, hp⟩ <;> simp

theorem CRInv_ReadChunk {hashFn : List Nat → Nat} {file : List Nat} {s : CRState}
    (hs : CRInv s) : CRInv (ChunkReader.ReadChunk hashFn file s).2.2 := by
  obtain ⟨i1, i2, i3, i4, i5, i6⟩ := hs
  unfold ChunkReader.ReadChunk
  cases hh : s.healthy
  · simp only [hh, Bool.not_false, if_true]
    exact ⟨i1, i2, i3, i4, i5, i6⟩
  · obtain ⟨hcl, hf⟩ := healthy_fields hh
    have hrec := i1 hh
    rcases hpc : parseChunkAt hashFn file s.pos with ⟨c, e⟩ | - | r
    · have he := parseChunkAt_ok_spec i6 hpc
      simp [hh, hpc, CRInv, CRState.healthy, hcl, hf, hrec, he.1]
    · simp [hh, hpc, CRInv, CRState.healthy, hcl, hf, hrec, i6]
    · have hr := parseChunkAt_corrupt_spec i6 hpc
      simp [hh, hpc, CRInv, CRState.healthy, hcl, hf, hrec, i6, hr.1, hr.2]

theorem CRInv_PullChunkHeader {hashFn : List Nat → Nat} {file : List Nat} {s : CRState}
    (hs : CRInv s) : CRInv (ChunkReader.PullChunkHeader hashFn file s).2.2 := by
  obtain ⟨i1, i2, i3, i4, i5, i6⟩ := hs
  unfold ChunkReader.PullChunkHeader
  cases hh : s.healthy
  · simp only [hh, Bool.not_false, if_true]
    exact ⟨i1, i2, i3, i4, i5, i6⟩
  · obtain ⟨hcl, hf⟩ := healthy_fields hh
    have hrec := i1 hh
    rcases hpc : parseHeaderAt hashFn file s.pos with ⟨c, e⟩ | - | r
    · simp [hh, hpc, CRInv, CRState.healthy, hcl, hf, hrec, i6]
    · simp [hh, hpc, CRInv, CRState.healthy, hcl, hf, hrec, i6]
    · have hr := parseHeaderAt_corrupt_spec i6 hpc
      simp [hh, hpc, CRInv, CRState.healthy, hcl, hf, hrec, i6, hr.1, hr.2]

theorem CRInv_CheckFileFormat {hashFn : List Nat → Nat} {file : List Nat} {s : CRState}
    (hs : CRInv s) : CRInv (ChunkReader.CheckFileFormat hashFn file s).2 :=
  CRInv_PullChunkHeader hs

theorem CRInv_Done {s : CRState} (hs : CRInv s) : CRInv (ChunkReader.Done s) := by
  obtain ⟨i1, i2, i3, i4, i5, i6⟩ := hs
  unfold ChunkReader.Done
  split
  · exact ⟨i1, i2, i3, i4, i5, i6⟩
  · split
    · next hcl ht =>
      have h5 := i5 ht
      simp [CRInv, CRState.healthy, i6, h5]
    · simp only [CRInv, CRState.healthy]
      refine ⟨by simp, by simp, by simp, by simp, ?_, i6⟩
      exact i5

theorem CRInv_Close {s : CRState} (hs : CRInv s) : CRInv (ChunkReader.Close s).2 :=
  CRInv_Done hs

theorem CRInv_Recover {hashFn : List Nat → Nat} {file : List Nat} {s : CRState}
    (hs : CRInv s) : CRInv (ChunkReader.Recover hashFn file s).2.2 := by
  obtain ⟨i1, i2, i3, i4, i5, i6⟩ := hs
  unfold ChunkReader.Recover
  split
  · exact ⟨i1, i2, i3, i4, i5, i6⟩
  · next hh =>
    split
    · next hcl =>
      split
      · next hr =>
        have hro : s.recoverable ≠ .kNo := by rw [hr]; intro hc; cases hc
        have hb := i4 hro
        simp [CRInv, CRState.healthy, hcl, hb]
      · exact ⟨i1, i2, i3, i4, i5, i6⟩
    · next hcl =>
      have hcl' : s.closed = false := by
        cases hc : s.closed
        · rfl
        · exact absurd hc hcl
      split
      · exact ⟨i1, i2, i3, i4, i5, i6⟩
      · next hr =>
        have hro : s.recoverable ≠ .kNo := by rw [hr]; intro hc; cases hc
        have hb := i4 hro
        simp [CRInv, CRState.healthy, hcl', hb]
      · next hr =>
        have hb := nextBlockBoundary_spec s.recoverablePos
        have hfind := findChunkFrom_spec hashFn file (file.length / kBlockSize + 2)
          (nextBlockBoundary s.recoverablePos) hb.2
        simp [CRInv, CRState.healthy, hcl', hfind.2]

theorem CRInv_Seek {file : List Nat} {p : Nat} {s : CRState} (hp : boundaryOk p)
    (hs : CRInv s) : CRInv (ChunkReader.Seek file p s).2 := by
  obtain ⟨i1, i2, i3, i4, i5, i6⟩ := hs
  unfold ChunkReader.Seek
  cases hh : s.healthy
  · simp only [hh, Bool.not_false, if_true]
    exact ⟨i1, i2, i3, i4, i5, i6⟩
  · obtain ⟨hcl, hf⟩ := healthy_fields hh
    have hrec := i1 hh
    by_cases hple : p ≤ file.length
    · simp [hh, hple, CRInv, CRState.healthy, hcl, hf, hrec, hp]
    · simp [hh, hple, CRInv, CRState.healthy, hcl, hf, hrec, i6]

theorem CRInv_SeekToChunk {hashFn : List Nat → Nat} {file : List Nat}
    {which : WhichChunk} {p : Nat} {s : CRState}
    (hs : CRInv s) : CRInv (ChunkReader.SeekToChunk hashFn file which p s).2 := by
  have hs' := hs
  obtain ⟨i1, i2, i3, i4, i5, i6⟩ := hs
  unfold ChunkReader.SeekToChunk
  cases hh : s.healthy
  · simp only [hh, Bool.not_false, if_true]
    exact ⟨i1, i2, i3, i4, i5, i6⟩
  · obtain ⟨hcl, hf⟩ := healthy_fields hh
    have hrec := i1 hh
    rcases hres : resolveChunk hashFn file which p (file.length + 1) 0 with - | b
    · have hb := nextBlockBoundary_spec (max s.pos p)
      have hge : s.pos ≤ nextBlockBoundary (max s.pos p) :=
        Nat.le_trans (Nat.le_max_left s.pos p) hb.1
      have hbo : boundaryOk (nextBlockBoundary (max s.pos p)) := Or.inl hb.2
      simp [hh, hres, CRInv, CRState.healthy, hcl, hf, hrec, i6, hge, hbo]
    · have hb := resolveChunk_some_spec hashFn file which p (file.length + 1) 0
        (Or.inl rfl) b hres
      simp only [hh, hres, Bool.not_true, Bool.false_eq_true, if_false]
      exact CRInv_Seek hb hs'

theorem CRInv_SizeOp {file : List Nat} {s : CRState} (hs : CRInv s) :
    CRInv (ChunkReader.SizeOp file s).2 := by
  unfold ChunkReader.SizeOp
  split
  · exact hs
  · exact hs

/-- Every reachable ChunkReader state satisfies the master invariant. -/
theorem reach_CRInv {hashFn : List Nat → Nat} {file : List Nat} {s : CRState}
    (h : Reach hashFn file s) : CRInv s := by
  induction h with
  | init p0 hp => exact CRInv_initCR p0 hp
  | readChunk _ ih => exact CRInv_ReadChunk ih
  | pullChunkHeader _ ih => exact CRInv_PullChunkHeader ih
  | checkFileFormat _ ih => exact CRInv_CheckFileFormat ih
  | recover _ ih => exact CRInv_Recover ih
  | close _ ih => exact CRInv_Close ih
  | seek p hp _ ih => exact CRInv_Seek hp ih
  | seekToChunk which p _ ih => exact CRInv_SeekToChunk ih
  | sizeOp _ ih => exact CRInv_SizeOp ih

/-! ### Claim theorems for the ChunkReader -/

/-- C1: for every call to `ChunkReader::ReadChunk` (and `PullChunkHeader`):
if it returns true, the reader is healthy, the output chunk (resp. chunk
header) is set, and the returned chunk is the one parsed at the position
reported by `pos()` at the time of the call (`PullChunkHeader` moreover
leaves `pos()` unchanged); if it returns false while the reader is healthy,
the source has ended cleanly; if it returns false and the reader is not
healthy, a failure occurred (the reader was already unhealthy, or the file
contents are invalid). -/
theorem ChunkReader.read_contract (hashFn : List Nat → Nat) (file : List Nat)
    (s : CRState) :
    ((ChunkReader.ReadChunk hashFn file s).1 = true →
      (ChunkReader.ReadChunk hashFn file s).2.2.healthy = true ∧
      ∃ c, (ChunkReader.ReadChunk hashFn file s).2.1 = some c ∧
        parseChunkAt hashFn file s.pos =
          ParseRes.ok c (ChunkReader.ReadChunk hashFn file s).2.2.pos) ∧
    ((ChunkReader.ReadChunk hashFn file s).1 = false →
      (ChunkReader.ReadChunk hashFn file s).2.2.healthy = true →
      parseChunkAt hashFn file s.pos = ParseRes.srcEnds) ∧
    ((ChunkReader.ReadChunk hashFn file s).1 = false →
      (ChunkReader.ReadChunk hashFn file s).2.2.healthy = false →
      s.healthy = false ∨
        ∃ r, parseChunkAt hashFn file s.pos = ParseRes.corrupt r) ∧
    ((ChunkReader.PullChunkHeader hashFn file s).1 = true →
      (ChunkReader.PullChunkHeader hashFn file s).2.2.healthy = true ∧
      (ChunkReader.PullChunkHeader hashFn file s).2.2.pos = s.pos ∧
      ∃ h e, (ChunkReader.PullChunkHeader hashFn file s).2.1 = some h ∧
        parseHeaderAt hashFn file s.pos = ParseRes.ok h e) ∧
    ((ChunkReader.PullChunkHeader hashFn file s).1 = false →
      (ChunkReader.PullChunkHeader hashFn file s).2.2.healthy = true →
      parseHeaderAt hashFn file s.pos = ParseRes.srcEnds) ∧
    ((ChunkReader.PullChunkHeader hashFn file s).1 = false →
      (ChunkReader.PullChunkHeader hashFn file s).2.2.healthy = false →
      s.healthy = false ∨
        ∃ r, parseHeaderAt hashFn file s.pos = ParseRes.corrupt r) := by
  cases hh : s.healthy
  · unfold ChunkReader.ReadChunk ChunkReader.PullChunkHeader
    simp [hh]
  · have hcl := (healthy_fields hh).1
    have hf := (healthy_fields hh).2
    unfold ChunkReader.ReadChunk ChunkReader.PullChunkHeader
    rcases hpc : parseChunkAt hashFn file s.pos with ⟨c, e⟩ | - | r <;>
      rcases hph : parseHeaderAt hashFn file s.pos with ⟨h, e'⟩ | - | r' <;>
      simp [hh, hpc, hph, CRState.healthy, hcl, hf]

/-- C1 witness: on the concrete one-chunk file the success branch of the
contract applies at the initial state. -/
theorem ChunkReader.read_contract_witness :
    (ChunkReader.ReadChunk hashModel file1 (initCR 0)).2.2.healthy = true ∧
    ∃ c, (ChunkReader.ReadChunk hashModel file1 (initCR 0)).2.1 = some c ∧
      parseChunkAt hashModel file1 (initCR 0).pos =
        ParseRes.ok c (ChunkReader.ReadChunk hashModel file1 (initCR 0)).2.2.pos :=
  (ChunkReader.read_contract hashModel file1 (initCR 0)).1 (by decide)

/-- C2: in every reachable state of a ChunkReader, after every public
operation: a healthy reader has recoverability token `kNo`; a closed reader
has token `kNo` or `kHaveChunk` (never `kFindChunk`); and whenever the token
is not `kNo`, `recoverable_pos_ ≥ pos_`. -/
theorem ChunkReader.recoverable_invariant {hashFn : List Nat → Nat}
    {file : List Nat} {s : CRState} (h : Reach hashFn file s) :
    (s.healthy = true → s.recoverable = Recoverable.kNo) ∧
    (s.closed = true →
      s.recoverable = Recoverable.kNo ∨ s.recoverable = Recoverable.kHaveChunk) ∧
    (s.recoverable ≠ Recoverable.kNo → s.pos ≤ s.recoverablePos) := by
  obtain ⟨i1, i2, i3, i4, i5, i6⟩ := reach_CRInv h
  refine ⟨i1, ?_, i3⟩
  intro hc
  rcases hr : s.recoverable with - | - | -
  · exact Or.inl rfl
  · exact Or.inr rfl
  · exact absurd hr (i2 hc)

/-- C2 witness: the invariant holds at a concrete reachable state, the one
obtained by closing the reader after reading a truncated source. -/
theorem ChunkReader.recoverable_invariant_witness :
    ((ChunkReader.Close
        (ChunkReader.ReadChunk hashModel truncFile (initCR 0)).2.2).2.healthy = true →
      (ChunkReader.Close
        (ChunkReader.ReadChunk hashModel truncFile (initCR 0)).2.2).2.recoverable =
        Recoverable.kNo) ∧
    ((ChunkReader.Close
        (ChunkReader.ReadChunk hashModel truncFile (initCR 0)).2.2).2.closed = true →
      (ChunkReader.Close
          (ChunkReader.ReadChunk hashModel truncFile (initCR 0)).2.2).2.recoverable =
          Recoverable.kNo ∨
        (ChunkReader.Close
            (ChunkReader.ReadChunk hashModel truncFile (initCR 0)).2.2).2.recoverable =
          Recoverable.kHaveChunk) ∧
    ((ChunkReader.Close
        (ChunkReader.ReadChunk hashModel truncFile (initCR 0)).2.2).2.recoverable ≠
        Recoverable.kNo →
      (ChunkReader.Close
          (ChunkReader.ReadChunk hashModel truncFile (initCR 0)).2.2).2.pos ≤
        (ChunkReader.Close
            (ChunkReader.ReadChunk hashModel truncFile (initCR 0)).2.2).2.recoverablePos) :=
  ChunkReader.recoverable_invariant
    (Reach.close (Reach.readChunk (Reach.init 0 (Or.inl rfl))))

/-- C3 counterexample: on a source that ends cleanly in the middle of a
chunk, `ReadChunk` returns false with the truncated flag set while the
reader REMAINS healthy — the claim asserts the reader is marked unhealthy
at that point. -/
theorem ChunkReader.truncated_stays_healthy_counterexample :
    (ChunkReader.ReadChunk hashModel truncFile (initCR 0)).1 = false ∧
    (ChunkReader.ReadChunk hashModel truncFile (initCR 0)).2.2.truncated = true ∧
    (ChunkReader.ReadChunk hashModel truncFile (initCR 0)).2.2.healthy = true := by
  decide

/-- C3 amended: for every ChunkReader state in which a clean EOF was observed
in the middle of a chunk (healthy with the truncated flag set): `Close()`
returns failure, leaving the reader closed and unhealthy, and a subsequent
`Recover()` returns true while the reader remains closed. -/
theorem ChunkReader.truncated_close_recover (hashFn : List Nat → Nat)
    (file : List Nat) (s : CRState)
    (hh : s.healthy = true) (ht : s.truncated = true) :
    (ChunkReader.Close s).1 = false ∧
    (ChunkReader.Close s).2.closed = true ∧
    (ChunkReader.Close s).2.healthy = false ∧
    (ChunkReader.Recover hashFn file (ChunkReader.Close s).2).1 = true ∧
    (ChunkReader.Recover hashFn file (ChunkReader.Close s).2).2.2.closed = true := by
  have hcl := (healthy_fields hh).1
  unfold ChunkReader.Close ChunkReader.Done ChunkReader.Recover
  simp [hcl, ht, CRState.healthy]

/-- C3 witness: the amended behavior on the concrete truncated file. -/
theorem ChunkReader.truncated_close_recover_witness :
    (ChunkReader.Close
      (ChunkReader.ReadChunk hashModel truncFile (initCR 0)).2.2).1 = false ∧
    (ChunkReader.Close
      (ChunkReader.ReadChunk hashModel truncFile (initCR 0)).2.2).2.closed = true ∧
    (ChunkReader.Close
      (ChunkReader.ReadChunk hashModel truncFile (initCR 0)).2.2).2.healthy = false ∧
    (ChunkReader.Recover hashModel truncFile
      (ChunkReader.Close
        (ChunkReader.ReadChunk hashModel truncFile (initCR 0)).2.2).2).1 = true ∧
    (ChunkReader.Recover hashModel truncFile
      (ChunkReader.Close
        (ChunkReader.ReadChunk hashModel truncFile
          (initCR 0)).2.2).2).2.2.closed = true :=
  ChunkReader.truncated_close_recover hashModel truncFile
    (ChunkReader.ReadChunk hashModel truncFile (initCR 0)).2.2 (by decide) (by decide)

/-- C8: whenever the truncated flag is set in a reachable ChunkReader state,
the underlying byte reader's position is strictly greater than the current
chunk's start position `pos()`. -/
theorem ChunkReader.truncated_position_invariant {hashFn : List Nat → Nat}
    {file : List Nat} {s : CRState} (h : Reach hashFn file s)
    (ht : s.truncated = true) : s.pos < s.brPos :=
  (reach_CRInv h).2.2.2.2.1 ht

/-- C8 witness: the invariant at the concrete truncated state reached on the
truncated file. -/
theorem ChunkReader.truncated_position_invariant_witness :
    (ChunkReader.ReadChunk hashModel truncFile (initCR 0)).2.2.truncated = true ∧
    (ChunkReader.ReadChunk hashModel truncFile (initCR 0)).2.2.pos <
      (ChunkReader.ReadChunk hashModel truncFile (initCR 0)).2.2.brPos :=
  ⟨by decide,
    ChunkReader.truncated_position_invariant
      (Reach.readChunk (Reach.init 0 (Or.inl rfl))) (by decide)⟩

/-- C9: `ChunkReader::Close` is idempotent — a second `Close` returns the
same result and leaves the same state — and `pos()` is unchanged by
`Close`. -/
theorem ChunkReader.close_idempotent (s : CRState) :
    ChunkReader.Close (ChunkReader.Close s).2 = ChunkReader.Close s ∧
    (ChunkReader.Close s).2.pos = s.pos := by
  have hD : (ChunkReader.Done s).closed = true := by
    unfold ChunkReader.Done
    split
    · next hc => exact hc
    · split
      · rfl
      · rfl
  constructor
  · unfold ChunkReader.Close ChunkReader.Done
    simp [hD]
    unfold ChunkReader.Done at hD
    revert hD
    split
    · intro hD
      simp [hD]
    · intro hD
      split <;> simp
  · unfold ChunkReader.Close ChunkReader.Done
    split
    · rfl
    · split
      · rfl
      · rfl

/-! ### Frame lemmas for the descriptor-backed readers -/

theorem FdReader.step_frame {op : FdOp} {w : FdWorld} {s : FdReaderState}
    (hs : s.syncPos = false) :
    (FdReader.step op (w, s)).1.fdPos = w.fdPos ∧
    (FdReader.step op (w, s)).1.posReads = w.posReads ∧
    (FdReader.step op (w, s)).1.posWrites = w.posWrites ∧
    (FdReader.step op (w, s)).2.syncPos = false := by
  cases op with
  | rd n =>
    simp only [FdReader.step, FdReader.read]
    split_ifs <;> simp [hs]
  | sk p =>
    simp only [FdReader.step, FdReader.seek]
    split_ifs <;> simp [hs]
  | cl =>
    simp only [FdReader.step, FdReader.close, FdReader.done, hs, Bool.and_false]
    split_ifs <;> simp_all

theorem FdReader.run_frame (ops : List FdOp) :
    ∀ (w : FdWorld) (s : FdReaderState), s.syncPos = false →
      (FdReader.run ops (w, s)).1.fdPos = w.fdPos ∧
      (FdReader.run ops (w, s)).1.posReads = w.posReads ∧
      (FdReader.run ops (w, s)).1.posWrites = w.posWrites := by
  induction ops with
  | nil =>
    intro w s hs
    exact ⟨rfl, rfl, rfl⟩
  | cons op ops ih =>
    intro w s hs
    have hstep := @FdReader.step_frame op w s hs
    have hrun : FdReader.run (op :: ops) (w, s) =
        FdReader.run ops (FdReader.step op (w, s)) := by
      unfold FdReader.run
      simp
    rw [hrun]
    have := ih (FdReader.step op (w, s)).1 (FdReader.step op (w, s)).2 hstep.2.2.2
    rw [show ((FdReader.step op (w, s)).1, (FdReader.step op (w, s)).2) =
      FdReader.step op (w, s) from rfl] at this
    exact ⟨this.1.trans hstep.1, this.2.1.trans hstep.2.1, this.2.2.trans hstep.2.2.1⟩

theorem FdMMapReader.mstep_frame {op : FdOp} {w : FdWorld} {s : FdMMapState}
    (hs : s.syncPos = false) :
    (FdMMapReader.step op (w, s)).1.fdPos = w.fdPos ∧
    (FdMMapReader.step op (w, s)).1.posReads = w.posReads ∧
    (FdMMapReader.step op (w, s)).1.posWrites = w.posWrites ∧
    (FdMMapReader.step op (w, s)).2.syncPos = false := by
  cases op with
  | rd n =>
    simp only [FdMMapReader.step, FdMMapReader.read]
    split_ifs <;> simp [hs]
  | sk p =>
    simp only [FdMMapReader.step, FdMMapReader.seek]
    split_ifs <;> simp [hs]
  | cl =>
    simp only [FdMMapReader.step, FdMMapReader.close, FdMMapReader.done, hs,
      Bool.and_false]
    split_ifs <;> simp_all

theorem FdMMapReader.mrun_frame (ops : List FdOp) :
    ∀ (w : FdWorld) (s : FdMMapState), s.syncPos = false →
      (FdMMapReader.run ops (w, s)).1.fdPos = w.fdPos ∧
      (FdMMapReader.run ops (w, s)).1.posReads = w.posReads ∧
      (FdMMapReader.run ops (w, s)).1.posWrites = w.posWrites := by
  induction ops with
  | nil =>
    intro w s hs
    exact ⟨rfl, rfl, rfl⟩
  | cons op ops ih =>
    intro w s hs
    have hstep := @FdMMapReader.mstep_frame op w s hs
    have hrun : FdMMapReader.run (op :: ops) (w, s) =
        FdMMapReader.run ops (FdMMapReader.step op (w, s)) := by
      unfold FdMMapReader.run
      simp
    rw [hrun]
    have := ih (FdMMapReader.step op (w, s)).1 (FdMMapReader.step op (w, s)).2
      hstep.2.2.2
    rw [show ((FdMMapReader.step op (w, s)).1, (FdMMapReader.step op (w, s)).2) =
      FdMMapReader.step op (w, s) from rfl] at this
    exact ⟨this.1.trans hstep.1, this.2.1.trans hstep.2.1, this.2.2.trans hstep.2.2.1⟩

theorem FdReader.close_closed (w : FdWorld) (s : FdReaderState) :
    (FdReader.close w s).2.closed = true := by
  unfold FdReader.close
  split
  · next h => exact h
  · rfl

theorem FdReader.close_of_closed {w : FdWorld} {s : FdReaderState}
    (h : s.closed = true) : FdReader.close w s = (w, s) := by
  unfold FdReader.close
  simp [h]

/-! ### Claim theorems for the descriptor-backed readers -/

/-- C4 counterexample: an `FdReader` constructed WITHOUT an explicit initial
position whose `Close` does not write the final logical position back to the
descriptor — the reader is unhealthy at `Done` (after a failed seek), so
`SyncPos` is skipped and the descriptor keeps position 0 while the final
logical position is 3. -/
theorem FdReader.sync_back_counterexample :
    (FdReader.run [.rd 3, .sk 99, .cl]
      (FdReader.mk ⟨[10, 11, 12, 13, 14], 0, 0, 0, 0, true, false, true⟩
        3 true none)).2.pos = 3 ∧
    (FdReader.run [.rd 3, .sk 99, .cl]
      (FdReader.mk ⟨[10, 11, 12, 13, 14], 0, 0, 0, 0, true, false, true⟩
        3 true none)).1.fdPos = 0 ∧
    (FdReader.run [.rd 3, .sk 99, .cl]
        (FdReader.mk ⟨[10, 11, 12, 13, 14], 0, 0, 0, 0, true, false, true⟩
          3 true none)).1.fdPos ≠
      (FdReader.run [.rd 3, .sk 99, .cl]
        (FdReader.mk ⟨[10, 11, 12, 13, 14], 0, 0, 0, 0, true, false, true⟩
          3 true none)).2.pos := by
  decide

/-- C4 amended: for every `FdReader` (and `FdMMapReader`) constructed with an
explicit initial position, no operation from construction through `Close`
ever reads or writes the descriptor's kernel-side seek position; constructed
without an explicit initial position, the reader queries and adopts the
descriptor's current position at construction, and at `Close` writes its
final logical position back to the descriptor provided the reader is still
healthy then. -/
theorem FdReader.initial_pos_descriptor_contract :
    (∀ (w : FdWorld) (fd : Int) (own : Bool) (p : Nat) (ops : List FdOp),
      (FdReader.run ops (FdReader.mk w fd own (some p))).1.fdPos = w.fdPos ∧
      (FdReader.run ops (FdReader.mk w fd own (some p))).1.posReads = w.posReads ∧
      (FdReader.run ops (FdReader.mk w fd own (some p))).1.posWrites = w.posWrites) ∧
    (∀ (w : FdWorld) (fd : Int) (own : Bool) (p : Nat) (ops : List FdOp),
      w.fstatOk = true →
      (FdMMapReader.run ops (FdMMapReader.mk w fd own (some p))).1.fdPos = w.fdPos ∧
      (FdMMapReader.run ops
        (FdMMapReader.mk w fd own (some p))).1.posReads = w.posReads ∧
      (FdMMapReader.run ops
        (FdMMapReader.mk w fd own (some p))).1.posWrites = w.posWrites) ∧
    (∀ (w : FdWorld) (fd : Int) (own : Bool),
      (FdReader.mk w fd own none).2.limitPos = w.fdPos ∧
      (FdReader.mk w fd own none).1.posReads = w.posReads + 1 ∧
      (w.fstatOk = true → (FdMMapReader.mk w fd own none).2.posM = w.fdPos)) ∧
    (∀ (w : FdWorld) (s : FdReaderState),
      s.syncPos = true → s.failed = false → s.closed = false →
      (FdReader.close w s).1.fdPos = s.pos) ∧
    (∀ (w : FdWorld) (s : FdMMapState),
      s.syncPos = true → s.failed = false → s.closed = false →
      (FdMMapReader.close w s).1.fdPos = s.posM) := by
  refine ⟨?_, ?_, ?_, ?_, ?_⟩
  · intro w fd own p ops
    exact FdReader.run_frame ops w ⟨fd, own, false, p, 0, false, false, none⟩ rfl
  · intro w fd own p ops hfstat
    have h : FdMMapReader.mk w fd own (some p) =
        (w, ⟨fd, own, false, w.content, p, false, false, none⟩) := by
      unfold FdMMapReader.mk
      simp [hfstat]
    rw [h]
    exact FdMMapReader.mrun_frame ops w
      ⟨fd, own, false, w.content, p, false, false, none⟩ rfl
  · intro w fd own
    refine ⟨rfl, rfl, ?_⟩
    intro hfstat
    unfold FdMMapReader.mk
    simp [hfstat]
  · intro w s hsync hf hc
    unfold FdReader.close FdReader.done
    simp only [hc, Bool.false_eq_true, if_false, hf, hsync, Bool.not_false,
      Bool.true_and, if_true]
    split
    · split <;> rfl
    · rfl
  · intro w s hsync hf hc
    unfold FdMMapReader.close FdMMapReader.done
    simp only [hc, Bool.false_eq_true, if_false, hf, hsync, Bool.not_false,
      Bool.true_and, if_true]
    split
    · split <;> rfl
    · rfl

/-- C4 witness: the frame property evaluated on a concrete reader with
explicit initial position 2, and the adopt-and-write-back behavior on a
concrete reader without one. -/
theorem FdReader.initial_pos_descriptor_contract_witness :
    (FdReader.run [.rd 2, .cl]
      (FdReader.mk ⟨[10, 11, 12, 13, 14], 4, 0, 0, 0, true, false, true⟩
        3 true (some 2))).1.fdPos = 4 ∧
    (FdReader.close ⟨[10, 11, 12, 13, 14], 4, 0, 0, 0, true, false, true⟩
      ⟨3, true, true, 3, 0, false, false, none⟩).1.fdPos = 3 := by
  have h := FdReader.initial_pos_descriptor_contract
  refine ⟨(h.1 ⟨[10, 11, 12, 13, 14], 4, 0, 0, 0, true, false, true⟩ 3 true 2
    [.rd 2, .cl]).1, ?_⟩
  have h4 := h.2.2.2.1 ⟨[10, 11, 12, 13, 14], 4, 0, 0, 0, true, false, true⟩
    ⟨3, true, true, 3, 0, false, false, none⟩ rfl rfl rfl
  exact h4

/-- C5: `Close` on a descriptor-backed reader closes the underlying
descriptor exactly once when owned (setting the stored fd to -1), leaves it
untouched when borrowed; an error during close does not prevent the
descriptor from being closed, and a close-time error is recorded only when
no earlier failure exists. -/
theorem FdReader.close_fd_discipline (w : FdWorld) (s : FdReaderState) :
    (s.owning = true → s.closed = false → 0 ≤ s.fdVal →
      (FdReader.close w s).1.closeCalls = w.closeCalls + 1 ∧
      (FdReader.close w s).2.fdVal = -1 ∧
      (FdReader.close w s).1.fdOpen = false ∧
      (FdReader.close (FdReader.close w s).1 (FdReader.close w s).2).1.closeCalls =
        w.closeCalls + 1) ∧
    (s.owning = false →
      (FdReader.close w s).1.closeCalls = w.closeCalls ∧
      (FdReader.close w s).1.fdOpen = w.fdOpen) ∧
    (s.failed = true →
      (FdReader.close w s).2.lastFailure = s.lastFailure ∧
      (FdReader.close w s).2.failed = true) ∧
    (s.failed = false → s.closed = false → s.owning = true → 0 ≤ s.fdVal →
      w.closeFails = true →
      (FdReader.close w s).2.failed = true ∧
      (FdReader.close w s).2.lastFailure = some FdOpName.closeOp) := by
  refine ⟨?_, ?_, ?_, ?_⟩
  · intro ho hc hfd
    have hfd' : decide (0 ≤ s.fdVal) = true := decide_eq_true hfd
    rw [FdReader.close_of_closed (FdReader.close_closed w s)]
    unfold FdReader.close FdReader.done
    simp only [hc, Bool.false_eq_true, if_false, ho, hfd', Bool.and_self,
      Bool.true_and]
    split_ifs <;> simp
  · intro ho
    unfold FdReader.close FdReader.done
    split
    · exact ⟨rfl, rfl⟩
    · simp only [ho, Bool.false_and, Bool.false_eq_true, if_false]
      split_ifs <;> exact ⟨rfl, rfl⟩
  · intro hf
    unfold FdReader.close FdReader.done
    split
    · exact ⟨rfl, hf⟩
    · simp only [hf, Bool.not_true, Bool.false_and, Bool.and_false,
        Bool.false_eq_true, if_false]
      split
      · simp [hf]
      · simp [hf]
  · intro hf hc ho hfd hcf
    have hfd' : decide (0 ≤ s.fdVal) = true := decide_eq_true hfd
    unfold FdReader.close FdReader.done
    simp only [hc, Bool.false_eq_true, if_false, ho, hfd', Bool.and_self,
      Bool.true_and, hf, hcf]
    split_ifs <;> simp_all

/-- C5 witness: the discipline evaluated at a concrete owned reader whose
`close()` fails, and a concrete borrowed reader. -/
theorem FdReader.close_fd_discipline_witness :
    (FdReader.close ⟨[1, 2, 3], 0, 0, 0, 0, true, true, true⟩
      ⟨4, true, false, 0, 0, false, false, none⟩).1.closeCalls = 1 ∧
    (FdReader.close ⟨[1, 2, 3], 0, 0, 0, 0, true, true, true⟩
      ⟨4, true, false, 0, 0, false, false, none⟩).2.fdVal = -1 ∧
    (FdReader.close ⟨[1, 2, 3], 0, 0, 0, 0, true, true, true⟩
      ⟨4, true, false, 0, 0, false, false, none⟩).1.fdOpen = false ∧
    (FdReader.close ⟨[1, 2, 3], 0, 0, 0, 0, true, true, true⟩
      ⟨4, true, false, 0, 0, false, false, none⟩).2.lastFailure =
      some FdOpName.closeOp ∧
    (FdReader.close ⟨[1, 2, 3], 0, 0, 0, 0, true, true, true⟩
      ⟨4, false, false, 0, 0, false, false, none⟩).1.closeCalls = 0 := by
  have h1 := FdReader.close_fd_discipline
    ⟨[1, 2, 3], 0, 0, 0, 0, true, true, true⟩
    ⟨4, true, false, 0, 0, false, false, none⟩
  have h2 := FdReader.close_fd_discipline
    ⟨[1, 2, 3], 0, 0, 0, 0, true, true, true⟩
    ⟨4, false, false, 0, 0, false, false, none⟩
  have ha := h1.1 rfl rfl (by decide)
  have hb := h1.2.2.2 rfl rfl rfl (by decide) rfl
  exact ⟨ha.1, ha.2.1, ha.2.2.1, hb.2, (h2.2.1 rfl).1⟩

/-- C6 counterexample: for an `FdReader` over a descriptor on which `fstat`
is unavailable, `SupportsRandomAccess()` still returns true (the claim says
random access is advertised only when `fstat` can report the size), while
`Size` indeed cannot succeed. -/
theorem FdReaderBase.random_access_counterexample :
    (⟨[1, 2, 3], 0, 0, 0, 0, true, false, false⟩ : FdWorld).fstatOk = false ∧
    FdReaderBase.SupportsRandomAccess ⟨3, true, false, 0, 0, false, false, none⟩ =
      true ∧
    (FdReaderBase.SizeOp ⟨[1, 2, 3], 0, 0, 0, 0, true, false, false⟩
      ⟨3, true, false, 0, 0, false, false, none⟩).1 = none := by
  decide

/-- C6 amended: `FdReaderBase::SupportsRandomAccess()` returns true
unconditionally; availability of `fstat` is a documented requirement on the
descriptor rather than a checked condition — `Size` succeeds with the file's
size exactly when `fstat` is available, and fails the reader otherwise. -/
theorem FdReaderBase.random_access_unconditional (w : FdWorld) (s : FdReaderState) :
    FdReaderBase.SupportsRandomAccess s = true ∧
    (s.healthy = true →
      (FdReaderBase.SizeOp w s).1 =
        if w.fstatOk then some w.content.length else none) ∧
    (s.healthy = true → w.fstatOk = false →
      (FdReaderBase.SizeOp w s).2.failed = true) := by
  refine ⟨rfl, ?_, ?_⟩
  · intro hh
    unfold FdReaderBase.SizeOp
    simp only [hh, Bool.not_true, Bool.false_eq_true, if_false]
    split <;> simp_all
  · intro hh hfstat
    unfold FdReaderBase.SizeOp
    simp [hh, hfstat]

/-- C6 witness: the amended statement at a concrete reader with and without
`fstat`. -/
theorem FdReaderBase.random_access_unconditional_witness :
    FdReaderBase.SupportsRandomAccess ⟨3, true, false, 0, 0, false, false, none⟩ =
      true ∧
    (FdReaderBase.SizeOp ⟨[1, 2, 3], 0, 0, 0, 0, true, false, true⟩
      ⟨3, true, false, 0, 0, false, false, none⟩).1 = some 3 ∧
    (FdReaderBase.SizeOp ⟨[1, 2, 3], 0, 0, 0, 0, true, false, false⟩
      ⟨3, true, false, 0, 0, false, false, none⟩).2.failed = true := by
  have h1 := FdReaderBase.random_access_unconditional
    ⟨[1, 2, 3], 0, 0, 0, 0, true, false, true⟩
    ⟨3, true, false, 0, 0, false, false, none⟩
  have h2 := FdReaderBase.random_access_unconditional
    ⟨[1, 2, 3], 0, 0, 0, 0, true, false, false⟩
    ⟨3, true, false, 0, 0, false, false, none⟩
  refine ⟨h1.1, ?_, h2.2.2 rfl rfl⟩
  have := h1.2.1 rfl
  simpa using this

/-- C7: constructing an `FdStreamReader` from a raw descriptor requires an
assumed initial position (the construction's precondition check fails
otherwise), and under that precondition the reported position starts at the
assumed value; constructed by filename with no assumed position, the assumed
position is zero. -/
theorem FdStreamReader.assumed_pos_contract (fd : Int) (own : Bool) :
    FdStreamReader.mkFromFd fd own none = none ∧
    (∀ (p : Nat) (s : FdStreamState),
      FdStreamReader.mkFromFd fd own (some p) = some s → s.pos = p) ∧
    ∀ fd2 : Int, (FdStreamReader.mkFromFilename fd2 none).pos = 0 := by
  refine ⟨?_, ?_, ?_⟩
  · unfold FdStreamReader.mkFromFd
    split <;> rfl
  · intro p s h
    unfold FdStreamReader.mkFromFd at h
    split at h
    · cases h
    · injection h with h1
      subst h1
      rfl
  · intro fd2
    rfl

/-- C7 witness: the contract at descriptor 5 with assumed position 7. -/
theorem FdStreamReader.assumed_pos_contract_witness :
    FdStreamReader.mkFromFd 5 true none = none ∧
    FdStreamState.pos ⟨5, true, 7, 0, false, false⟩ = 7 ∧
    (FdStreamReader.mkFromFilename 5 none).pos = 0 := by
  have h := FdStreamReader.assumed_pos_contract 5 true
  exact ⟨h.1, h.2.1 7 ⟨5, true, 7, 0, false, false⟩ (by decide), h.2.2 5⟩

/-- C10: a TensorFlow `FileReader` advertises random access exactly when the
name of its underlying `RandomAccessFile` could be determined, i.e. when the
recorded filename is non-empty; a `FileReader` over a file whose `Name()` is
unsupported reports no random access. -/
theorem FileReaderBase.random_access_iff_name (f : RAFile) :
    (FileReaderBase.SupportsRandomAccess (TFFileReader.mk f) = true ↔
      (TFFileReader.mk f).filename ≠ []) ∧
    (f.nameRes = none →
      FileReaderBase.SupportsRandomAccess (TFFileReader.mk f) = false) := by
  constructor
  · unfold FileReaderBase.SupportsRandomAccess
    cases hfn : (TFFileReader.mk f).filename <;> simp [hfn]
  · intro h
    unfold FileReaderBase.SupportsRandomAccess TFFileReader.mk
    simp [h]

/-- C10 witness: no random access for a file with unsupported `Name()`;
random access for a file with a non-empty name. -/
theorem FileReaderBase.random_access_iff_name_witness :
    FileReaderBase.SupportsRandomAccess (TFFileReader.mk ⟨none⟩) = false ∧
    FileReaderBase.SupportsRandomAccess (TFFileReader.mk ⟨some [104, 105]⟩) =
      true := by
  refine ⟨(FileReaderBase.random_access_iff_name ⟨none⟩).2 rfl, ?_⟩
  exact (FileReaderBase.random_access_iff_name ⟨some [104, 105]⟩).1.mpr (by decide)

end Riegeli
